import Mathlib

/-!
# Verification of the reMarkable stroke decoder and rasterizer

Shallow embedding of `src/remarkable/render.py`: the color resolver, the
page-dimension resolver, the structured generation-3/5 stroke decoder, the
heuristic generation-6 decoder, the canvas mapper and the rasterizer's
draw loop.  Byte buffers are modelled as `List Nat` (each entry one byte),
32-bit floats are decoded exactly into `ℚ`, Python exceptions are modelled
with `Option`/`Except`.
-/

namespace RM

/-- Device native width (`RM2_WIDTH`). -/
def RM2_WIDTH : Nat := 1404

/-- Device native height (`RM2_HEIGHT`). -/
def RM2_HEIGHT : Nat := 1872

/-! ## Byte-level helpers -/

/-- Total little-endian 32-bit read, used where the Python code's
`struct.unpack_from` is provably in bounds (returns 0 on a short buffer;
every call site below guards the bounds as the source does). -/
def readU32T (data : List Nat) (off : Nat) : Nat :=
  match (data.drop off).take 4 with
  | [b0, b1, b2, b3] => b0 + 256 * b1 + 65536 * b2 + 16777216 * b3
  | _ => 0

/-- Little-endian 32-bit read that fails on a short buffer, mirroring
`struct.unpack_from("<I", data, off)` raising `struct.error`. -/
def readU32 (data : List Nat) (off : Nat) : Option Nat :=
  match (data.drop off).take 4 with
  | [b0, b1, b2, b3] => some (b0 + 256 * b1 + 65536 * b2 + 16777216 * b3)
  | _ => none

/-- Little-endian encoding of the low 32 bits of `n`, as `struct.pack("<I", n)`. -/
def le32 (n : Nat) : List Nat :=
  [n % 256, n / 256 % 256, n / 65536 % 256, n / 16777216 % 256]

/-- Exact value of an IEEE-754 binary32 bit pattern as a rational.
Exponent 255 (infinities/NaNs, which no claim exercises) is mapped to a
large sentinel magnitude. -/
def f32ToRat (b : Nat) : ℚ :=
  let s : ℕ := b / 2 ^ 31 % 2
  let e : ℕ := b / 2 ^ 23 % 256
  let m : ℕ := b % 2 ^ 23
  let mag : ℚ :=
    if e = 0 then (m : ℚ) / (2 ^ 149 : ℚ)
    else if e = 255 then (2 ^ 128 : ℚ)
    else ((2 ^ 23 + m : ℕ) : ℚ) * ((2 : ℚ) ^ e) / (2 ^ 150 : ℚ)
  if s = 1 then -mag else mag

/-- Python `int()` applied to a float: truncation toward zero. -/
def pyInt (q : ℚ) : ℤ :=
  if q < 0 then ⌈q⌉ else ⌊q⌋

/-- First index `j ≥ start` at which `pat` occurs in full inside `data`,
mirroring Python `bytes.find(pat, start)` (`none` for `-1`). -/
def bytesFind (data pat : List Nat) (start : Nat) : Option Nat :=
  (List.range (data.length + 1)).find?
    (fun j => decide (start ≤ j) && decide ((data.drop j).take pat.length = pat))

/-! ## Palette and color resolver (`STROKE_COLOR_MAP`, `_argb_to_rgb`,
`_stroke_color_to_rgb`) -/

/-- The fixed palette `STROKE_COLOR_MAP`. -/
def STROKE_COLOR_MAP : Nat → Option (Nat × Nat × Nat)
  | 0 => some (0, 0, 0)
  | 1 => some (128, 128, 128)
  | 2 => some (255, 255, 255)
  | 3 => some (255, 235, 156)
  | 4 => some (174, 214, 241)
  | 5 => some (183, 228, 199)
  | 6 => some (255, 201, 201)
  | 7 => some (220, 80, 80)
  | 8 => some (100, 149, 237)
  | 9 => some (255, 200, 100)
  | 10 => some (200, 162, 200)
  | _ => none

/-- Model of `_argb_to_rgb`: unpack a 32-bit ARGB word; for `0 < alpha < 255` blend
each channel toward white (Python computes the blend in floating point and
truncates with `int()`; modelled exactly over `ℚ`). -/
def argb_to_rgb (argb : Nat) : Nat × Nat × Nat :=
  let r := argb / 65536 % 256
  let g := argb / 256 % 256
  let b := argb % 256
  let a := argb / 16777216 % 256
  if a < 255 ∧ 0 < a then
    ((pyInt ((r : ℚ) * (a / 255) + 255 * (1 - (a : ℚ) / 255))).toNat,
     (pyInt ((g : ℚ) * (a / 255) + 255 * (1 - (a : ℚ) / 255))).toNat,
     (pyInt ((b : ℚ) * (a / 255) + 255 * (1 - (a : ℚ) / 255))).toNat)
  else (r, g, b)

/-- Model of `_stroke_color_to_rgb`: palette lookup, then the ARGB fallback guarded by
`(color_val >> 24) >= 0x80 or color_val > 0x00FFFFFF`, else black. -/
def stroke_color_to_rgb (color_val : Nat) : Nat × Nat × Nat :=
  match STROKE_COLOR_MAP color_val with
  | some rgb => rgb
  | none =>
    if color_val / 16777216 ≥ 128 ∨ color_val > 16777215 then
      argb_to_rgb color_val
    else (0, 0, 0)

/-! ## Page dimension resolver (`get_page_dimensions_from_content`)

The function does file I/O (`Path.is_file`, `read_text`, `json.loads`); the
embedding takes the outcome of those steps as input and models the Python
dynamic semantics of the `try` body exactly: `content.get` raises
`AttributeError` on a non-dict, `int()` raises `TypeError` on lists/dicts/None
and `ValueError` on non-numeric strings, and only
`(json.JSONDecodeError, OSError, TypeError)` are caught. -/

/-- A parsed JSON value as `json.loads` produces it (numbers restricted to
integers, which is all the sidecar fields use). -/
inductive PyJson where
  | null : PyJson
  | bool (b : Bool) : PyJson
  | num (n : ℤ) : PyJson
  | str (s : String) : PyJson
  | arr (l : List PyJson) : PyJson
  | obj (fields : List (String × PyJson)) : PyJson

/-- Python exceptions relevant to `get_page_dimensions_from_content`. -/
inductive PyExc where
  | attributeError : PyExc
  | valueError : PyExc
  | typeError : PyExc
deriving DecidableEq

/-- The outcome of locating, reading and JSON-parsing the sidecar. -/
inductive ContentInput where
  /-- Case where `content_path` is `None` or not a file. -/
  | noFile : ContentInput
  /-- Case where `read_text` raised `OSError`. -/
  | unreadable : ContentInput
  /-- Case where `json.loads` raised `JSONDecodeError`. -/
  | unparseable : ContentInput
  /-- Case where `json.loads` returned a value. -/
  | parsed (j : PyJson) : ContentInput

/-- Python truthiness of a JSON value. -/
def pyTruthy : PyJson → Bool
  | .null => false
  | .bool b => b
  | .num n => n != 0
  | .str s => !(s == "")
  | .arr l => !l.isEmpty
  | .obj f => !f.isEmpty

/-- Model of `content.get(key)`: `AttributeError` unless `content` is a dict;
missing key yields `None`. -/
def pyGet (j : PyJson) (key : String) : Except PyExc PyJson :=
  match j with
  | .obj fields =>
    match fields.lookup key with
    | some v => .ok v
    | none => .ok .null
  | _ => .error .attributeError

/-- Python `int(s)` on a string: optional sign followed by digits, else
`ValueError` (whitespace handling omitted; not exercised). -/
def pyIntOfString (s : String) : Except PyExc ℤ :=
  match s.toList with
  | [] => .error .valueError
  | c :: cs =>
    let digits := if c = '-' ∨ c = '+' then cs else c :: cs
    if digits ≠ [] ∧ digits.all Char.isDigit then
      let v : ℤ := digits.foldl (fun acc d => 10 * acc + (d.toNat - 48 : ℤ)) 0
      .ok (if c = '-' then -v else v)
    else .error .valueError

/-- Python `int(x)` on a JSON value. -/
def pyIntOf : PyJson → Except PyExc ℤ
  | .num n => .ok n
  | .bool b => .ok (if b then 1 else 0)
  | .str s => pyIntOfString s
  | .null => .error .typeError
  | .arr _ => .error .typeError
  | .obj _ => .error .typeError

/-- Model of `get_page_dimensions_from_content`: body of the `try` block with the
`except (json.JSONDecodeError, OSError, TypeError)` clause applied.
`AttributeError` and `ValueError` are not caught and propagate. -/
def get_page_dimensions_from_content (inp : ContentInput) : Except PyExc (ℤ × ℤ) :=
  match inp with
  | .noFile => .ok (RM2_WIDTH, RM2_HEIGHT)
  | .unreadable => .ok (RM2_WIDTH, RM2_HEIGHT)
  | .unparseable => .ok (RM2_WIDTH, RM2_HEIGHT)
  | .parsed content =>
    let body : Except PyExc (ℤ × ℤ) := do
      let wj ← pyGet content "customZoomPageWidth"
      let w := if pyTruthy wj then wj else .num RM2_WIDTH
      let hj ← pyGet content "customZoomPageHeight"
      let h := if pyTruthy hj then hj else .num RM2_HEIGHT
      let wi ← pyIntOf w
      let hi ← pyIntOf h
      pure (wi, hi)
    match body with
    | .ok r => .ok r
    | .error .typeError => .ok (RM2_WIDTH, RM2_HEIGHT)
    | .error e => .error e

/-! ## Version sniffer (`_read_rm_version`, `_read_rm_version_and_layers`) -/

/-- Bytes of the ASCII header literal `HEADER_PREFIX`. -/
def headerBytes : List Nat :=
  "reMarkable .lines file, version=".toList.map Char.toNat

/-- Model of `_read_rm_version`: check the textual header, then map the single
byte after it (`b"3"`, `b"5"`, `b"6"`, anything else falls back to 3).
`ValueError("Invalid .rm header")` is the `FormatError` of the spec. -/
def read_rm_version (data : List Nat) (offset : Nat) : Except String Nat :=
  if (data.drop offset).take headerBytes.length = headerBytes then
    let off := offset + headerBytes.length
    let ver := (data.drop off).take 1
    if ver = [51] then .ok 3
    else if ver = [53] then .ok 5
    else if ver = [54] then .ok 6
    else .ok 3
  else .error "Invalid .rm header"

/-- Model of `_read_rm_version_and_layers`: version sniff, reject generation 6,
then the 32-bit layer count at the fixed 43-byte header boundary. -/
def read_rm_version_and_layers (data : List Nat) (offset : Nat) :
    Except String (Nat × Nat × Nat) :=
  match read_rm_version data offset with
  | .error e => .error e
  | .ok version =>
    if version = 6 then .error "v6 uses parse_rm_v6_strokes"
    else
      match readU32 data (offset + 43) with
      | none => .error ".rm file too short"
      | some nLayers => .ok (version, nLayers, offset + 43 + 4)

/-! ## Structured decoder, generations 3 and 5 (`_parse_rm_strokes`) -/

/-- A decoded stroke: point list (canvas units, exact rationals) and raw
color identifier, Python's `StrokeWithColor`. -/
abbrev StrokeC : Type := List (ℚ × ℚ) × Nat

/-- Byte size of the fixed per-stroke record: `S_STROKE_V3` (20 bytes) or
`S_STROKE_V5` (24 bytes). -/
def strokeHeaderSize (version : Nat) : Nat :=
  if version = 3 then 20 else 24

/-- Read `n` consecutive 24-byte segment records (`S_SEGMENT`), keeping only
x and y; fails like `struct.unpack_from` when the buffer is short. -/
def parseSegments (data : List Nat) (off : Nat) : Nat → Option (List (ℚ × ℚ) × Nat)
  | 0 => some ([], off)
  | n + 1 =>
    if off + 24 ≤ data.length then
      let p : ℚ × ℚ := (f32ToRat (readU32T data off), f32ToRat (readU32T data (off + 4)))
      match parseSegments data (off + 24) n with
      | none => none
      | some (ps, off') => some (p :: ps, off')
    else none

/-- On-disk segment count of the stroke record at `off`: the trailing 32-bit
field of `S_STROKE_V3` / `S_STROKE_V5`. -/
def strokeSegCount (data : List Nat) (off : Nat) (version : Nat) : Nat :=
  readU32T data (off + strokeHeaderSize version - 4)

/-- Parse one stroke record and its segments.  Returns the emitted stroke
(`none` when the point list is empty and the stroke is dropped; a
single-point stroke is emitted with the point duplicated) and the offset
past the stroke. -/
def parseStroke (data : List Nat) (off : Nat) (version : Nat) :
    Option (Option StrokeC × Nat) :=
  if off + strokeHeaderSize version ≤ data.length then
    match parseSegments data (off + strokeHeaderSize version)
        (strokeSegCount data off version) with
    | none => none
    | some (points, off') =>
      some ((match points with
             | [] => none
             | [p] => some ([p, p], readU32T data (off + 4))
             | _ => some (points, readU32T data (off + 4))), off')
  else none

/-- Parse `n` consecutive stroke records, concatenating the emitted strokes
in on-disk order. -/
def parseStrokesN (data : List Nat) (off : Nat) (version : Nat) :
    Nat → Option (List StrokeC × Nat)
  | 0 => some ([], off)
  | n + 1 =>
    match parseStroke data off version with
    | none => none
    | some (emitted, off') =>
      match parseStrokesN data off' version n with
      | none => none
      | some (rest, off'') =>
        some ((match emitted with | none => rest | some s => s :: rest), off'')

/-- Model of `_parse_rm_strokes`: for each of `nLayers` layers read the 32-bit
stroke count and then that many strokes, flattening all layers into one
list in on-disk order. -/
def parse_rm_strokes (data : List Nat) (off : Nat) (nLayers : Nat) (version : Nat) :
    Option (List StrokeC × Nat) :=
  match nLayers with
  | 0 => some ([], off)
  | n + 1 =>
    match readU32 data off with
    | none => none
    | some nStrokes =>
      match parseStrokesN data (off + 4) version nStrokes with
      | none => none
      | some (strokes, off') =>
        match parse_rm_strokes data off' n version with
        | none => none
        | some (rest, off'') => some (strokes ++ rest, off'')

/-! ## Heuristic decoder, generation 6 (`_parse_rm_v6_strokes`)

The two `while True` loops driven by `bytes.find` are modelled with an
explicit fuel argument; one unit of fuel is spent per loop iteration, and
`buffer length + 1` units are proved sufficient (claim C10), since each
iteration strictly advances the scan position. -/

/-- Marker value `LINE_DEF_FLAG` identifying a stroke-bearing block. -/
def LINE_DEF_FLAG : Nat := 0x5020200

/-- Little-endian marker bytes `struct.pack("<I", LINE_DEF_FLAG)`. -/
def flagBytes : List Nat := le32 LINE_DEF_FLAG

/-- Inner point-array scan of `_parse_rm_v6_strokes`: repeatedly
`body.find(b"\x5c", idx)`; a candidate needs a positive byte length that is
a multiple of 14 and fits in the block; the candidate with the strictly
greatest point count wins.  Returns `some best` where `best` carries
`(idx_5c, n_pts)`, or `none` when fuel runs out. -/
def v6InnerScan (body : List Nat) (idx : Nat) (bestN : Nat) (best : Option (Nat × Nat)) :
    Nat → Option (Option (Nat × Nat))
  | 0 => none
  | fuel + 1 =>
    match bytesFind body [0x5c] idx with
    | none => some best
    | some j =>
      if j + 5 + 14 > body.length then some best
      else
        let lenPt := readU32T body (j + 1)
        let nPts := lenPt / 14
        if 0 < nPts ∧ lenPt % 14 = 0 ∧ j + 5 + lenPt ≤ body.length ∧ bestN < nPts then
          v6InnerScan body (j + 1) nPts (some (j, nPts)) fuel
        else
          v6InnerScan body (j + 1) bestN best fuel

/-- Model of `_v6_line_def_color`: the 32-bit color 18 bytes before the
point-array marker, or 0 when the marker is too close to the block start. -/
def v6_line_def_color (body : List Nat) (idx5c : Nat) : Nat :=
  if idx5c < 18 then 0 else readU32T body (idx5c - 18)

/-- Extract the `n` 14-byte points starting at `start`, shifting x by half
the device width as the source does (`x_px = x + half_w`). -/
def v6Points (body : List Nat) (start : Nat) (n : Nat) : List (ℚ × ℚ) :=
  (List.range n).map fun k =>
    (f32ToRat (readU32T body (start + 14 * k)) + (RM2_WIDTH / 2 : ℕ),
     f32ToRat (readU32T body (start + 14 * k + 4)))

/-- Outer block scan of `_parse_rm_v6_strokes`: find the little-endian
marker, validate the preceding 32-bit block length, extract the block body,
run the inner scan, and accumulate the stroke and its points.  The scan
resumes at `i + 1` after every match, accepted or not. -/
def v6Outer (data : List Nat) (sr : List StrokeC) (ax ay : List ℚ) (pos : Nat) :
    Nat → Option (List StrokeC × List ℚ × List ℚ)
  | 0 => none
  | fuel + 1 =>
    match bytesFind data flagBytes pos with
    | none => some (sr, ax, ay)
    | some i =>
      if i < 4 then v6Outer data sr ax ay (i + 1) fuel
      else
        let lenBody := readU32T data (i - 4)
        if lenBody = 0 ∨ 2 * 1024 * 1024 < lenBody then
          v6Outer data sr ax ay (i + 1) fuel
        else if data.length < i + 4 + 4 + lenBody then
          v6Outer data sr ax ay (i + 1) fuel
        else
          let body := (data.drop (i + 8)).take lenBody
          match v6InnerScan body 0 0 none (body.length + 1) with
          | none => none
          | some none => v6Outer data sr ax ay (i + 1) fuel
          | some (some (idx5c, bestN)) =>
            let color := v6_line_def_color body idx5c
            let points := v6Points body (idx5c + 5) bestN
            v6Outer data (sr ++ [(points, color)])
              (ax ++ points.map Prod.fst) (ay ++ points.map Prod.snd) (i + 1) fuel

/-- Python `min` over a nonempty list (the source only applies it to
nonempty lists; the empty case is given an arbitrary value). -/
def listMin : List ℚ → ℚ
  | [] => 0
  | x :: xs => xs.foldl min x

/-- Python `max` over a nonempty list. -/
def listMax : List ℚ → ℚ
  | [] => 0
  | x :: xs => xs.foldl max x

/-- Model of `_parse_rm_v6_strokes`: run the outer scan from position 0 with
sufficient fuel; with no recovered strokes return the empty list and the
default bounding box `(0, 0, RM2_WIDTH, RM2_HEIGHT)`, otherwise the min/max
bounding box of all accumulated coordinates.  `none` would mean the fuel
bound was insufficient (refuted by claim C10). -/
def parse_rm_v6_strokes (data : List Nat) :
    Option (List StrokeC × (ℚ × ℚ × ℚ × ℚ)) :=
  match v6Outer data [] [] [] 0 (data.length + 1) with
  | none => none
  | some (sr, ax, ay) =>
    if sr.isEmpty then some ([], (0, 0, (RM2_WIDTH : ℚ), (RM2_HEIGHT : ℚ)))
    else some (sr, (listMin ax, listMin ay, listMax ax, listMax ay))

/-! ## Canvas mapper (`_scale_v6_strokes_to_canvas`) and the draw loop of
`render_rm_to_png` -/

/-- Model of `_scale_v6_strokes_to_canvas`: per axis,
`(coord - bbox_min) / span * (dim - 1)` clamped into `[0, dim - 1]`, where
`span` is the bounding-box extent with Python's `or 1` applied (1 exactly
when the extent is zero). -/
def scale_v6_strokes_to_canvas (strokesRaw : List StrokeC)
    (bbox : ℚ × ℚ × ℚ × ℚ) (canvasW canvasH : ℤ) : List StrokeC :=
  let minX := bbox.1
  let minY := bbox.2.1
  let maxX := bbox.2.2.1
  let maxY := bbox.2.2.2
  let spanX : ℚ := if maxX - minX = 0 then 1 else maxX - minX
  let spanY : ℚ := if maxY - minY = 0 then 1 else maxY - minY
  strokesRaw.map fun s =>
    (s.1.map fun p =>
      (max 0 (min ((canvasW : ℚ) - 1) ((p.1 - minX) / spanX * ((canvasW : ℚ) - 1))),
       max 0 (min ((canvasH : ℚ) - 1) ((p.2 - minY) / spanY * ((canvasH : ℚ) - 1)))),
     s.2)

/-- Draw operations contributed by one stroke in the final loop of
`render_rm_to_png`: skip strokes with fewer than 2 points, otherwise one
2px line segment per consecutive pair of `int()`-truncated points, in the
stroke's resolved color. -/
def strokeOps (s : StrokeC) : List ((ℤ × ℤ) × (ℤ × ℤ) × (Nat × Nat × Nat)) :=
  if s.1.length < 2 then []
  else
    let rgb := stroke_color_to_rgb s.2
    let xy := s.1.map fun p => (pyInt p.1, pyInt p.2)
    (List.range (xy.length - 1)).map fun i =>
      (xy.getD i (0, 0), xy.getD (i + 1) (0, 0), rgb)

/-- All draw operations of the render loop, in stroke order. -/
def drawOps (strokes : List StrokeC) : List ((ℤ × ℤ) × (ℤ × ℤ) × (Nat × Nat × Nat)) :=
  match strokes with
  | [] => []
  | s :: rest => strokeOps s ++ drawOps rest

/-! ## Encoder for generation-3/5 files

Serialization of the fixed binary layout of §6 of the spec, used to state
round-trip properties of the structured decoder over arbitrary valid files. -/

/-- One on-disk segment record (`S_SEGMENT`); each field holds the 32-bit
pattern of the stored little-endian float. -/
structure SegRec where
  x : Nat
  y : Nat
  speed : Nat
  dir : Nat
  w : Nat
  pressure : Nat

/-- One on-disk stroke record with its segments (`S_STROKE_V3` /
`S_STROKE_V5`; `unk2` present only in generation 5). -/
structure StrokeRec where
  pen : Nat
  color : Nat
  unk1 : Nat
  width : Nat
  unk2 : Nat
  segs : List SegRec

/-- Serialize a segment record, 24 bytes. -/
def encodeSeg (s : SegRec) : List Nat :=
  le32 s.x ++ le32 s.y ++ le32 s.speed ++ le32 s.dir ++ le32 s.w ++ le32 s.pressure

/-- Serialize a stroke record: fixed header with trailing segment count,
then the segment records. -/
def encodeStroke (version : Nat) (r : StrokeRec) : List Nat :=
  le32 r.pen ++ le32 r.color ++ le32 r.unk1 ++ le32 r.width ++
    (if version = 3 then [] else le32 r.unk2) ++ le32 r.segs.length ++
    (r.segs.map encodeSeg).flatten

/-- Serialize a layer: 32-bit stroke count, then the strokes. -/
def encodeLayer (version : Nat) (l : List StrokeRec) : List Nat :=
  le32 l.length ++ (l.map (encodeStroke version)).flatten

/-- Serialize all layers. -/
def encodeBody (version : Nat) (layers : List (List StrokeRec)) : List Nat :=
  (layers.map (encodeLayer version)).flatten

/-- Serialize a whole generation-3/5 file: 32-byte header literal, ASCII
version digit, padding to the 43-byte header region, 32-bit layer count,
then the layers. -/
def encodeRmFile (version : Nat) (layers : List (List StrokeRec)) : List Nat :=
  headerBytes ++ [48 + version] ++ List.replicate 10 0 ++ le32 layers.length ++
    encodeBody version layers

/-! ## Spec-side comparison definitions -/

/-- Decoded (x, y) of an encoded segment record. -/
def segPt (s : SegRec) : ℚ × ℚ :=
  (f32ToRat (s.x % 2 ^ 32), f32ToRat (s.y % 2 ^ 32))

/-- The stroke the structured decoder emits for an encoded stroke record:
dropped when there are no segments, duplicated when there is exactly one. -/
def emitOf (r : StrokeRec) : Option StrokeC :=
  match r.segs with
  | [] => none
  | [s] => some ([segPt s, segPt s], r.color % 2 ^ 32)
  | _ => some (r.segs.map segPt, r.color % 2 ^ 32)

/-- Version resulting from the byte after the header per the claim C6
wording: digit bytes `'3'`, `'5'`, `'6'` map to their generation, everything
else (including a missing byte) falls back to 3. -/
def specVersionDigit (b : Option Nat) : Nat :=
  if b = some 51 then 3
  else if b = some 53 then 5
  else if b = some 54 then 6
  else 3

/-- Modelled from the spec (claim C5 wording): per-axis pixel formula
`(coord - bbox_min) / max(bbox_span, 1) * (dim - 1)` followed by the clamp
into `[0, dim - 1]`. -/
def claimC5Pixel (coord bboxMin bboxSpan : ℚ) (dim : ℤ) : ℚ :=
  max 0 (min ((dim : ℚ) - 1) ((coord - bboxMin) / max bboxSpan 1 * ((dim : ℚ) - 1)))

/-- Per-axis pixel formula the code actually computes (amended claim C5):
divisor is the bounding-box span with Python's `or 1` applied, so 1 exactly
when the span is zero. -/
def codePixel (coord bboxMin bboxSpan : ℚ) (dim : ℤ) : ℚ :=
  max 0 (min ((dim : ℚ) - 1)
    ((coord - bboxMin) / (if bboxSpan = 0 then 1 else bboxSpan) * ((dim : ℚ) - 1)))

/-- A 31-byte generation-6 buffer holding one stroke-bearing block whose
best point array declares exactly one 14-byte point: 32-bit block length 19,
the `LINE_DEF_FLAG` marker, 4 container bytes, then the 19-byte block body
`0x5C`, 32-bit length 14, and one all-zero point record. -/
def v6OnePointFile : List Nat :=
  [19, 0, 0, 0] ++ [0, 2, 2, 5] ++ [0, 0, 0, 0] ++
    [92, 14, 0, 0, 0] ++ List.replicate 14 0

/-- Body bytes of a minimal generation-3 layer section: one layer containing
one stroke record with color 7 and a single all-zero segment. -/
def v3OneStrokeBody : List Nat :=
  le32 1 ++ le32 0 ++ le32 7 ++ le32 0 ++ le32 0 ++ le32 1 ++ List.replicate 24 0

/-- Body bytes of a generation-3 layer section declaring one stroke with
zero segments. -/
def v3ZeroSegBody : List Nat :=
  le32 1 ++ le32 0 ++ le32 7 ++ le32 0 ++ le32 0 ++ le32 0

/-- A sample stroke record with color 7 and one all-zero segment. -/
def sampleStroke : StrokeRec :=
  ⟨0, 7, 0, 0, 0, [⟨0, 0, 0, 0, 0, 0⟩]⟩

end RM

namespace RM

/-! ## Claim C3: color resolver on alpha-0 identifiers -/

/-- Counterexample to claim C3: the resolver applied to `0x00FF0000` (alpha
byte 0, not in the palette) returns black, not the raw low-24-bit RGB
`(255, 0, 0)`, because the value neither has alpha at least `0x80` nor
exceeds `0x00FFFFFF`, so the ARGB branch is never taken. -/
theorem c3_counterexample :
    stroke_color_to_rgb 0x00FF0000 = (0, 0, 0) ∧
    stroke_color_to_rgb 0x00FF0000 ≠ (255, 0, 0) := by
  constructor <;> decide

/-- Claim C3 as amended: a 32-bit identifier outside the fixed palette whose
ARGB alpha byte is 0 (equivalently, whose value fits in 24 bits) resolves
to black `(0, 0, 0)`; full-alpha `0xFFFF0000` resolves to `(255, 0, 0)`;
and the helper `_argb_to_rgb` itself does return raw unblended RGB for
alpha 0 (`0x00FF0000 ↦ (255, 0, 0)`), but the resolver never calls it for
such identifiers. -/
theorem c3_amended :
    (∀ c : Nat, c < 2 ^ 24 → STROKE_COLOR_MAP c = none →
      stroke_color_to_rgb c = (0, 0, 0)) ∧
    stroke_color_to_rgb 0xFFFF0000 = (255, 0, 0) ∧
    argb_to_rgb 0x00FF0000 = (255, 0, 0) := by
  refine ⟨fun c hc hmap => ?_, by decide, by decide⟩
  unfold stroke_color_to_rgb
  rw [hmap]
  have h1 : c / 16777216 = 0 := Nat.div_eq_of_lt (by omega)
  rw [if_neg]
  simp only [h1, not_or, not_le, not_lt]
  omega

/-- Witness for `c3_amended` at the concrete alpha-0 input `0x00FF0000`. -/
theorem c3_amended_witness :
    stroke_color_to_rgb 0x00FF0000 = (0, 0, 0) ∧
    stroke_color_to_rgb 0xFFFF0000 = (255, 0, 0) ∧
    argb_to_rgb 0x00FF0000 = (255, 0, 0) :=
  ⟨c3_amended.1 0x00FF0000 (by decide) (by decide), c3_amended.2.1, c3_amended.2.2⟩

/-! ## Claim C4: page dimension resolver -/

/-- Claim C4 is a code bug: the resolver does degrade to the device defaults
`(1404, 1872)` for an absent, unreadable, or unparseable sidecar and for a
parsed object without the custom fields, and returns both custom fields
when present — but it is not raise-free: JSON content `[]` (any non-object)
raises an uncaught `AttributeError` from `content.get`, and a non-numeric
string field raises an uncaught `ValueError` from `int()`, contradicting
the claim that every such input yields the defaults. -/
theorem c4_code_bug :
    get_page_dimensions_from_content .noFile = .ok (1404, 1872) ∧
    get_page_dimensions_from_content .unreadable = .ok (1404, 1872) ∧
    get_page_dimensions_from_content .unparseable = .ok (1404, 1872) ∧
    get_page_dimensions_from_content (.parsed (.obj [])) = .ok (1404, 1872) ∧
    get_page_dimensions_from_content
      (.parsed (.obj [("customZoomPageWidth", .num 1000),
                      ("customZoomPageHeight", .num 2000)])) = .ok (1000, 2000) ∧
    get_page_dimensions_from_content (.parsed (.arr [])) = .error .attributeError ∧
    get_page_dimensions_from_content
      (.parsed (.obj [("customZoomPageWidth", .str "abc")])) = .error .valueError :=
  ⟨rfl, rfl, rfl, rfl, rfl, rfl, rfl⟩

/-! ## Claim C9: the rasterizer draws nothing for strokes with < 2 points -/

/-- Claim C9: a stroke with fewer than 2 points contributes no draw
operations, and the whole draw-operation list is unchanged by removing all
such strokes. -/
theorem c9_short_strokes_draw_nothing :
    (∀ s : StrokeC, s.1.length < 2 → strokeOps s = []) ∧
    (∀ strokes : List StrokeC,
      drawOps strokes = drawOps (strokes.filter fun s => 2 ≤ s.1.length)) := by
  have hskip : ∀ s : StrokeC, s.1.length < 2 → strokeOps s = [] := by
    intro s hs
    unfold strokeOps
    rw [if_pos hs]
  refine ⟨hskip, fun strokes => ?_⟩
  induction strokes with
  | nil => rfl
  | cons s rest ih =>
    by_cases h : 2 ≤ s.1.length
    · simp only [drawOps, List.filter_cons, decide_eq_true_eq, if_pos h, ih]
    · have h0 : strokeOps s = [] := hskip s (by omega)
      simp only [drawOps, List.filter_cons, decide_eq_true_eq, if_neg h, ih, h0,
        List.nil_append]

/-- Witness for `c9_short_strokes_draw_nothing` on a concrete single-point
stroke (as the heuristic decoder can produce). -/
theorem c9_witness :
    strokeOps ([((702 : ℚ), (0 : ℚ))], 0) = [] ∧
    drawOps [([((702 : ℚ), (0 : ℚ))], 0)] =
      drawOps ([([((702 : ℚ), (0 : ℚ))], 0)].filter fun s => 2 ≤ s.1.length) :=
  ⟨c9_short_strokes_draw_nothing.1 ([((702 : ℚ), (0 : ℚ))], 0) (by decide),
   c9_short_strokes_draw_nothing.2 [([((702 : ℚ), (0 : ℚ))], 0)]⟩

/-! ## Claim C5: the canvas mapper's per-axis formula -/

/-- Counterexample to claim C5: with a bounding box of width 1/2 the code
divides by the raw span 1/2 (`span or 1` keeps a nonzero fractional span),
mapping x = 1/2 to pixel 99 on a width-100 canvas, while the claim's
`max(bbox_span, 1)` formula yields 99/2. -/
theorem c5_counterexample :
    scale_v6_strokes_to_canvas [([((1 : ℚ)/2, 0)], 0)] (0, 0, 1/2, 1) 100 100 =
      [([((99 : ℚ), 0)], 0)] ∧
    claimC5Pixel ((1 : ℚ)/2) 0 (1/2) 100 = 99 / 2 ∧
    (99 : ℚ) ≠ 99 / 2 := by
  refine ⟨?_, ?_, by norm_num⟩
  · simp only [scale_v6_strokes_to_canvas, List.map]
    norm_num
  · unfold claimC5Pixel
    norm_num

/-- Claim C5 as amended: for every input, the canvas mapper computes, per
point and axis, `(coord - bbox_min) / span' * (dim - 1)` clamped into
`[0, dim - 1]`, where `span'` is the bounding-box span if it is nonzero and
1 otherwise (Python's `or 1`), not `max(span, 1)`. -/
theorem c5_amended (strokes : List StrokeC) (bbox : ℚ × ℚ × ℚ × ℚ) (w h : ℤ) :
    scale_v6_strokes_to_canvas strokes bbox w h =
      strokes.map fun s =>
        (s.1.map fun p =>
          (codePixel p.1 bbox.1 (bbox.2.2.1 - bbox.1) w,
           codePixel p.2 bbox.2.1 (bbox.2.2.2 - bbox.2.1) h), s.2) :=
  rfl

/-! ## Claim C6: version sniffer -/

/-- Claim C6: the version sniffer fails with the format error exactly when
the fixed 32-byte header literal is absent at `offset`; when the literal is
present it never fails, and the single byte after it determines the
generation — digits `'3'`, `'5'`, `'6'` map to 3, 5, 6 and every other
value (or a missing byte) falls back to generation 3. -/
theorem c6_version_sniffer (data : List Nat) (offset : Nat) :
    ((data.drop offset).take 32 ≠ headerBytes →
      read_rm_version data offset = .error "Invalid .rm header") ∧
    ((data.drop offset).take 32 = headerBytes →
      read_rm_version data offset = .ok (specVersionDigit (data.drop (offset + 32)).head?)) := by
  have hlen : headerBytes.length = 32 := by decide
  constructor
  · intro hno
    unfold read_rm_version
    rw [hlen, if_neg hno]
  · intro hyes
    unfold read_rm_version
    rw [hlen, if_pos hyes]
    have hv : (data.drop (offset + 32)).take 1 = ((data.drop (offset + 32)).head?).toList :=
      List.take_one
    cases hb : (data.drop (offset + 32)).head? with
    | none =>
      rw [hb] at hv
      simp only [hv, Option.toList]
      unfold specVersionDigit
      simp
    | some b =>
      rw [hb] at hv
      simp only [hv, Option.toList]
      unfold specVersionDigit
      by_cases h51 : b = 51
      · simp [h51]
      · by_cases h53 : b = 53
        · simp [h51, h53]
        · by_cases h54 : b = 54
          · simp [h51, h53, h54]
          · simp [h51, h53, h54]

/-- Witness for `c6_version_sniffer`: a header carrying digit `'6'`
resolves to generation 6, and a junk buffer is rejected. -/
theorem c6_witness :
    read_rm_version (headerBytes ++ [54]) 0 =
      .ok (specVersionDigit ((headerBytes ++ [54]).drop (0 + 32)).head?) ∧
    read_rm_version [1, 2, 3] 0 = .error "Invalid .rm header" :=
  ⟨(c6_version_sniffer (headerBytes ++ [54]) 0).2 (by decide),
   (c6_version_sniffer [1, 2, 3] 0).1 (by decide)⟩

/-! ## Claim C8: every mapped pixel coordinate is inside the canvas -/

/-- Bounds for one clamped axis value and its `int()` truncation. -/
theorem clamp_bounds (d : ℤ) (hd : 1 ≤ d) (v : ℚ) :
    0 ≤ max 0 (min ((d : ℚ) - 1) v) ∧ max 0 (min ((d : ℚ) - 1) v) ≤ (d : ℚ) - 1 ∧
    0 ≤ pyInt (max 0 (min ((d : ℚ) - 1) v)) ∧
    pyInt (max 0 (min ((d : ℚ) - 1) v)) ≤ d - 1 := by
  have hd1 : (0 : ℚ) ≤ (d : ℚ) - 1 := by
    have : (1 : ℚ) ≤ (d : ℚ) := by exact_mod_cast hd
    linarith
  have h0 : 0 ≤ max 0 (min ((d : ℚ) - 1) v) := le_max_left 0 _
  have h1 : max 0 (min ((d : ℚ) - 1) v) ≤ (d : ℚ) - 1 := max_le hd1 (min_le_left _ _)
  have hpy : pyInt (max 0 (min ((d : ℚ) - 1) v)) = ⌊max 0 (min ((d : ℚ) - 1) v)⌋ := by
    unfold pyInt
    rw [if_neg (not_lt.2 h0)]
  refine ⟨h0, h1, ?_, ?_⟩
  · rw [hpy]
    exact Int.floor_nonneg.2 h0
  · rw [hpy]
    have hle : (↑⌊max 0 (min ((d : ℚ) - 1) v)⌋ : ℚ) ≤ (d : ℚ) - 1 :=
      le_trans (Int.floor_le _) h1
    have hcast : ((d : ℚ) - 1) = ((d - 1 : ℤ) : ℚ) := by push_cast; ring
    rw [hcast] at hle
    exact_mod_cast hle

/-- Claim C8: for positive canvas dimensions, every coordinate of every
point of every canvas-mapped heuristic stroke lies in `[0, dim - 1]`, and so
does its `int()`-truncated rasterized pixel value, regardless of the input
coordinates and bounding box. -/
theorem c8_scaled_in_canvas (strokes : List StrokeC) (bbox : ℚ × ℚ × ℚ × ℚ)
    (w h : ℤ) (hw : 1 ≤ w) (hh : 1 ≤ h) :
    ∀ s ∈ scale_v6_strokes_to_canvas strokes bbox w h, ∀ p ∈ s.1,
      (0 ≤ p.1 ∧ p.1 ≤ (w : ℚ) - 1 ∧ 0 ≤ p.2 ∧ p.2 ≤ (h : ℚ) - 1) ∧
      (0 ≤ pyInt p.1 ∧ pyInt p.1 ≤ w - 1 ∧ 0 ≤ pyInt p.2 ∧ pyInt p.2 ≤ h - 1) := by
  intro s hs p hp
  simp only [scale_v6_strokes_to_canvas] at hs
  obtain ⟨s0, hs0, rfl⟩ := List.mem_map.1 hs
  obtain ⟨p0, hp0, rfl⟩ := List.mem_map.1 hp
  obtain ⟨hx0, hx1, hx2, hx3⟩ := clamp_bounds w hw
    ((p0.1 - bbox.1) / (if bbox.2.2.1 - bbox.1 = 0 then 1 else bbox.2.2.1 - bbox.1)
      * ((w : ℚ) - 1))
  obtain ⟨hy0, hy1, hy2, hy3⟩ := clamp_bounds h hh
    ((p0.2 - bbox.2.1) / (if bbox.2.2.2 - bbox.2.1 = 0 then 1 else bbox.2.2.2 - bbox.2.1)
      * ((h : ℚ) - 1))
  exact ⟨⟨hx0, hx1, hy0, hy1⟩, hx2, hx3, hy2, hy3⟩

/-- Witness for `c8_scaled_in_canvas` on a one-point page mapped to a
100 × 100 canvas. -/
theorem c8_witness :
    (0 ≤ (0 : ℚ) ∧ (0 : ℚ) ≤ (100 : ℚ) - 1 ∧ 0 ≤ (0 : ℚ) ∧ (0 : ℚ) ≤ (100 : ℚ) - 1) ∧
    (0 ≤ pyInt 0 ∧ pyInt 0 ≤ 100 - 1 ∧ 0 ≤ pyInt 0 ∧ pyInt 0 ≤ 100 - 1) := by
  have hsc : scale_v6_strokes_to_canvas [([((0 : ℚ), (0 : ℚ))], 0)] (0, 0, 0, 0) 100 100 =
      [([((0 : ℚ), (0 : ℚ))], 0)] := by
    simp only [scale_v6_strokes_to_canvas, List.map]
    norm_num
  have hs : (([((0 : ℚ), (0 : ℚ))], 0) : StrokeC) ∈
      scale_v6_strokes_to_canvas [([((0 : ℚ), (0 : ℚ))], 0)] (0, 0, 0, 0) 100 100 := by
    rw [hsc]
    exact List.mem_singleton.2 rfl
  have hp : ((0 : ℚ), (0 : ℚ)) ∈ (([((0 : ℚ), (0 : ℚ))], 0) : StrokeC).1 :=
    List.mem_singleton.2 rfl
  exact c8_scaled_in_canvas [([((0 : ℚ), (0 : ℚ))], 0)] (0, 0, 0, 0) 100 100
    (by norm_num) (by norm_num) _ hs _ hp

/-! ## Heuristic decoder: termination, empty-page default, single-point
strokes -/

/-- A successful `bytesFind` returns an index past the requested start at
which the pattern matches in full. -/
theorem bytesFind_spec {data pat : List Nat} {start j : Nat}
    (h : bytesFind data pat start = some j) :
    start ≤ j ∧ (data.drop j).take pat.length = pat := by
  have hp := List.find?_some h
  simp only [Bool.and_eq_true, decide_eq_true_eq] at hp
  exact hp

/-- A full match of a nonempty pattern at `j` fits inside the buffer. -/
theorem match_fits {data pat : List Nat} {j : Nat} (hne : pat ≠ [])
    (h : (data.drop j).take pat.length = pat) : j + pat.length ≤ data.length := by
  have hl := congrArg List.length h
  have hp := List.length_pos.2 hne
  simp only [List.length_take, List.length_drop] at hl
  omega

/-- The inner point-array scan succeeds whenever its fuel exceeds the number
of unscanned bytes: each iteration advances the index by at least one. -/
theorem v6InnerScan_isSome (body : List Nat) :
    ∀ (fuel idx bestN : Nat) (best : Option (Nat × Nat)),
      body.length - idx < fuel → (v6InnerScan body idx bestN best fuel).isSome := by
  intro fuel
  induction fuel with
  | zero => intro idx bestN best h; omega
  | succ fuel ih =>
    intro idx bestN best h
    cases hf : bytesFind body [0x5c] idx with
    | none => simp [v6InnerScan, hf]
    | some j =>
      obtain ⟨hji, hmatch⟩ := bytesFind_spec hf
      have hfit : j + 1 ≤ body.length := by
        have := match_fits (by simp) hmatch
        simpa using this
      simp only [v6InnerScan, hf]
      by_cases hbig : j + 5 + 14 > body.length
      · rw [if_pos hbig]
        simp
      · rw [if_neg hbig]
        split
        · exact ih (j + 1) _ _ (by omega)
        · exact ih (j + 1) _ _ (by omega)

/-- The outer block scan succeeds whenever its fuel exceeds the number of
unscanned bytes: the scan position strictly increases after every marker
match, accepted or rejected, and the inner scan is run with sufficient
fuel. -/
theorem v6Outer_isSome (data : List Nat) :
    ∀ (fuel : Nat) (sr : List StrokeC) (ax ay : List ℚ) (pos : Nat),
      data.length - pos < fuel → (v6Outer data sr ax ay pos fuel).isSome := by
  intro fuel
  induction fuel with
  | zero => intro sr ax ay pos h; omega
  | succ fuel ih =>
    intro sr ax ay pos h
    cases hf : bytesFind data flagBytes pos with
    | none => simp [v6Outer, hf]
    | some i =>
      obtain ⟨hpi, hmatch⟩ := bytesFind_spec hf
      have hfit : i + 4 ≤ data.length := by
        have := match_fits (by simp [flagBytes, le32]) hmatch
        simpa [flagBytes, le32] using this
      have hrec : data.length - (i + 1) < fuel := by omega
      simp only [v6Outer, hf]
      by_cases hlt : i < 4
      · rw [if_pos hlt]
        exact ih sr ax ay (i + 1) hrec
      · rw [if_neg hlt]
        by_cases hbad : readU32T data (i - 4) = 0 ∨ 2 * 1024 * 1024 < readU32T data (i - 4)
        · rw [if_pos hbad]
          exact ih sr ax ay (i + 1) hrec
        · rw [if_neg hbad]
          by_cases hover : data.length < i + 4 + 4 + readU32T data (i - 4)
          · rw [if_pos hover]
            exact ih sr ax ay (i + 1) hrec
          · rw [if_neg hover]
            split
            · rename_i heq
              exfalso
              have hin := v6InnerScan_isSome
                ((data.drop (i + 8)).take (readU32T data (i - 4)))
                (((data.drop (i + 8)).take (readU32T data (i - 4))).length + 1) 0 0 none
                (by omega)
              rw [heq] at hin
              simp at hin
            · exact ih sr ax ay (i + 1) hrec
            · exact ih _ _ _ (i + 1) hrec

/-- Unfolding of the generation-6 decoder once the outer scan's result is
known. -/
theorem parse_v6_eq (data : List Nat) (sr : List StrokeC) (ax ay : List ℚ)
    (h : v6Outer data [] [] [] 0 (data.length + 1) = some (sr, ax, ay)) :
    parse_rm_v6_strokes data =
      if sr.isEmpty then some ([], (0, 0, (RM2_WIDTH : ℚ), (RM2_HEIGHT : ℚ)))
      else some (sr, (listMin ax, listMin ay, listMax ax, listMax ay)) := by
  unfold parse_rm_v6_strokes
  rw [h]

/-- Claim C10: the heuristic generation-6 decoder terminates on every finite
input buffer — with fuel bounded by the buffer length plus one for each of
its scans, the decode always completes with a result. -/
theorem c10_termination (data : List Nat) : (parse_rm_v6_strokes data).isSome := by
  have h := v6Outer_isSome data (data.length + 1) [] [] [] 0 (by omega)
  cases hv : v6Outer data [] [] [] 0 (data.length + 1) with
  | none =>
    rw [hv] at h
    simp at h
  | some r =>
    obtain ⟨sr, ax, ay⟩ := r
    rw [parse_v6_eq data sr ax ay hv]
    by_cases he : sr.isEmpty <;> simp [he]

/-- Claim C7: when the heuristic scan accepts no stroke-bearing block, the
decoder returns the empty stroke list together with the default bounding
box `(0, 0, 1404, 1872)`, as a normal (non-error) result. -/
theorem c7_empty_default (data : List Nat) (strokes : List StrokeC)
    (bbox : ℚ × ℚ × ℚ × ℚ) (h : parse_rm_v6_strokes data = some (strokes, bbox))
    (hempty : strokes = []) : bbox = (0, 0, 1404, 1872) := by
  have hS := v6Outer_isSome data (data.length + 1) [] [] [] 0 (by omega)
  cases hv : v6Outer data [] [] [] 0 (data.length + 1) with
  | none =>
    rw [hv] at hS
    simp at hS
  | some r =>
    obtain ⟨sr, ax, ay⟩ := r
    rw [parse_v6_eq data sr ax ay hv] at h
    by_cases he : sr.isEmpty
    · rw [if_pos he, Option.some.injEq, Prod.mk.injEq] at h
      rw [← h.2]
      norm_num [RM2_WIDTH, RM2_HEIGHT]
    · rw [if_neg he, Option.some.injEq, Prod.mk.injEq] at h
      simp [h.1, hempty] at he

/-- Witness for `c7_empty_default` on the empty buffer, which the decoder
maps to no strokes and the default bounding box. -/
theorem c7_witness : ((0 : ℚ), (0 : ℚ), (1404 : ℚ), (1872 : ℚ)) = (0, 0, 1404, 1872) :=
  c7_empty_default [] [] _ (by decide) rfl

/-- Counterexample to claim C1: the heuristic generation-6 decoder emits a
stroke with exactly one point (no degenerate duplication) for a block whose
best point array has a single 14-byte point, so not every emitted stroke
has at least 2 points. -/
theorem c1_counterexample :
    (parse_rm_v6_strokes v6OnePointFile).map (fun r => r.1.map fun s => s.1.length) =
      some [1] ∧ ¬ 2 ≤ 1 := by
  constructor
  · rfl
  · omega

/-! ## Structured decoder: every emitted stroke has at least two points -/

/-- Every stroke emitted by one `parseStroke` call has at least 2 points:
empty point lists are dropped and single points are duplicated. -/
theorem parseStroke_min_points {data : List Nat} {off version : Nat} {s : StrokeC}
    {off' : Nat} (h : parseStroke data off version = some (some s, off')) :
    2 ≤ s.1.length := by
  unfold parseStroke at h
  by_cases hb : off + strokeHeaderSize version ≤ data.length
  · rw [if_pos hb] at h
    cases hseg : parseSegments data (off + strokeHeaderSize version)
        (strokeSegCount data off version) with
    | none =>
      rw [hseg] at h
      cases h
    | some pr =>
      obtain ⟨points, off2⟩ := pr
      rw [hseg] at h
      rcases points with _ | ⟨p, _ | ⟨q, t⟩⟩ <;> simp at h
      · rw [← h.1]
        rfl
      · rw [← h.1]
        simp
  · rw [if_neg hb] at h
    cases h

/-- All strokes emitted for a run of `n` stroke records have ≥ 2 points. -/
theorem parseStrokesN_min_points (data : List Nat) (version : Nat) :
    ∀ (n off : Nat) (strokes : List StrokeC) (off' : Nat),
      parseStrokesN data off version n = some (strokes, off') →
      ∀ s ∈ strokes, 2 ≤ s.1.length := by
  intro n
  induction n with
  | zero =>
    intro off strokes off' h s hs
    simp [parseStrokesN] at h
    obtain ⟨h1, h2⟩ := h
    subst h1
    cases hs
  | succ n ih =>
    intro off strokes off' h s hs
    unfold parseStrokesN at h
    cases hstk : parseStroke data off version with
    | none =>
      rw [hstk] at h
      cases h
    | some pr =>
      obtain ⟨emitted, off2⟩ := pr
      rw [hstk] at h
      simp only [] at h
      cases hrest : parseStrokesN data off2 version n with
      | none =>
        rw [hrest] at h
        cases h
      | some pr2 =>
        obtain ⟨rest, off3⟩ := pr2
        rw [hrest] at h
        cases emitted with
        | none =>
          simp at h
          obtain ⟨h1, h2⟩ := h
          subst h1
          exact ih off2 rest off3 hrest s hs
        | some st =>
          simp at h
          obtain ⟨h1, h2⟩ := h
          subst h1
          cases hs with
          | head => exact parseStroke_min_points hstk
          | tail _ htl => exact ih off2 rest off3 hrest s htl

/-- Claim C1 as amended: restricted to the structured generation-3/5
decoder, every emitted stroke has at least 2 points, and a stroke record
whose on-disk segment count is 1 is emitted as exactly 2 identical points
(the heuristic generation-6 decoder, by `c1_counterexample`, emits a
single-point array as a 1-point stroke without duplication). -/
theorem c1_amended :
    (∀ (data : List Nat) (off nLayers version : Nat) (strokes : List StrokeC)
      (off' : Nat), parse_rm_strokes data off nLayers version = some (strokes, off') →
      ∀ s ∈ strokes, 2 ≤ s.1.length) ∧
    (∀ (data : List Nat) (off version : Nat) (emitted : Option StrokeC) (off' : Nat),
      parseStroke data off version = some (emitted, off') →
      strokeSegCount data off version = 1 →
      ∃ p c, emitted = some ([p, p], c)) := by
  constructor
  · intro data off nLayers version
    induction nLayers generalizing off with
    | zero =>
      intro strokes off' h s hs
      simp [parse_rm_strokes] at h
      obtain ⟨h1, h2⟩ := h
      subst h1
      cases hs
    | succ n ih =>
      intro strokes off' h s hs
      unfold parse_rm_strokes at h
      cases hcnt : readU32 data off with
      | none =>
        rw [hcnt] at h
        cases h
      | some nStrokes =>
        rw [hcnt] at h
        simp only [] at h
        cases hrun : parseStrokesN data (off + 4) version nStrokes with
        | none =>
          rw [hrun] at h
          cases h
        | some pr =>
          obtain ⟨strokes1, off2⟩ := pr
          rw [hrun] at h
          simp only [] at h
          cases hrest : parse_rm_strokes data off2 n version with
          | none =>
            rw [hrest] at h
            cases h
          | some pr2 =>
            obtain ⟨strokes2, off3⟩ := pr2
            rw [hrest] at h
            simp at h
            obtain ⟨h1, h2⟩ := h
            subst h1
            rcases List.mem_append.1 hs with h1 | h2
            · exact parseStrokesN_min_points data version nStrokes (off + 4)
                strokes1 off2 hrun s h1
            · exact ih off2 strokes2 off3 hrest s h2
  · intro data off version emitted off' h hc
    unfold parseStroke at h
    by_cases hb : off + strokeHeaderSize version ≤ data.length
    · rw [if_pos hb, hc] at h
      simp only [parseSegments] at h
      by_cases h24 : off + strokeHeaderSize version + 24 ≤ data.length
      · rw [if_pos h24] at h
        simp at h
        exact ⟨_, _, h.1.symm⟩
      · rw [if_neg h24] at h
        cases h
    · rw [if_neg hb] at h
      cases h

/-- Witness for `c1_amended`: a one-layer generation-3 body whose single
stroke declares one segment decodes to one stroke of exactly 2 identical
points. -/
theorem c1_amended_witness :
    (2 ≤ (([(f32ToRat 0, f32ToRat 0), (f32ToRat 0, f32ToRat 0)] : List (ℚ × ℚ)).length)) ∧
    (∃ p c, (some ([(f32ToRat 0, f32ToRat 0), (f32ToRat 0, f32ToRat 0)], 7) :
        Option StrokeC) = some ([p, p], c)) :=
  ⟨c1_amended.1 v3OneStrokeBody 0 1 3
      [([(f32ToRat 0, f32ToRat 0), (f32ToRat 0, f32ToRat 0)], 7)] 48 rfl
      ([(f32ToRat 0, f32ToRat 0), (f32ToRat 0, f32ToRat 0)], 7) (List.mem_singleton.2 rfl),
   c1_amended.2 v3OneStrokeBody 4 3
      (some ([(f32ToRat 0, f32ToRat 0), (f32ToRat 0, f32ToRat 0)], 7)) 48 rfl rfl⟩

/-! ## Round-trip lemmas for the generation-3/5 encoder -/

/-- Length of a 32-bit little-endian encoding. -/
theorem le32_length (n : Nat) : (le32 n).length = 4 := rfl

/-- Dropping past a known prefix of a suffix. -/
theorem drop_shift {data pre rest : List Nat} {off : Nat}
    (h : data.drop off = pre ++ rest) : data.drop (off + pre.length) = rest := by
  rw [← List.drop_drop, h, List.drop_left]

/-- Reading 32 bits over an encoded value recovers it modulo `2^32`. -/
theorem readU32T_le32 {data rest : List Nat} {off n : Nat}
    (h : data.drop off = le32 n ++ rest) : readU32T data off = n % 2 ^ 32 := by
  unfold readU32T
  rw [h, show (4 : Nat) = (le32 n).length from rfl, List.take_left]
  show n % 256 + 256 * (n / 256 % 256) + 65536 * (n / 65536 % 256) +
      16777216 * (n / 16777216 % 256) = n % 2 ^ 32
  omega

/-- Fallible variant of `readU32T_le32`. -/
theorem readU32_le32 {data rest : List Nat} {off n : Nat}
    (h : data.drop off = le32 n ++ rest) : readU32 data off = some (n % 2 ^ 32) := by
  unfold readU32
  rw [h, show (4 : Nat) = (le32 n).length from rfl, List.take_left]
  show some (n % 256 + 256 * (n / 256 % 256) + 65536 * (n / 65536 % 256) +
      16777216 * (n / 16777216 % 256)) = some (n % 2 ^ 32)
  congr 1
  omega

/-- Total byte length of a run of encoded segment records. -/
theorem encodeSegs_length (segs : List SegRec) :
    ((segs.map encodeSeg).flatten).length = 24 * segs.length := by
  induction segs with
  | nil => rfl
  | cons a t ih =>
    rw [List.map_cons, List.flatten_cons, List.length_append, ih,
      show (encodeSeg a).length = 24 from rfl, List.length_cons]
    omega

/-- Total byte length of an encoded stroke record. -/
theorem encodeStroke_length (version : Nat) (r : StrokeRec) :
    (encodeStroke version r).length = strokeHeaderSize version + 24 * r.segs.length := by
  unfold encodeStroke strokeHeaderSize
  by_cases hv : version = 3
  · rw [if_pos hv, if_pos hv]
    simp only [List.length_append, le32_length, List.length_nil, encodeSegs_length]
  · rw [if_neg hv, if_neg hv]
    simp only [List.length_append, le32_length, encodeSegs_length]

/-- Parsing the encoding of a run of segment records yields exactly their
decoded (x, y) pairs and advances the offset by 24 bytes per segment. -/
theorem parseSegments_encode (data : List Nat) :
    ∀ (segs : List SegRec) (off : Nat) (rest : List Nat),
      data.drop off = (segs.map encodeSeg).flatten ++ rest →
      parseSegments data off segs.length =
        some (segs.map segPt, off + 24 * segs.length) := by
  intro segs
  induction segs with
  | nil =>
    intro off rest h
    simp [parseSegments]
  | cons sg tl ih =>
    intro off rest h
    rw [List.map_cons, List.flatten_cons, List.append_assoc] at h
    simp only [encodeSeg, List.append_assoc] at h
    have hx := readU32T_le32 h
    have h1 := drop_shift h
    rw [le32_length] at h1
    have hy := readU32T_le32 h1
    have h2 := drop_shift h1
    rw [le32_length] at h2
    have h3 := drop_shift h2
    rw [le32_length] at h3
    have h4 := drop_shift h3
    rw [le32_length] at h4
    have h5 := drop_shift h4
    rw [le32_length] at h5
    have h6 := drop_shift h5
    rw [le32_length] at h6
    have h6' : data.drop (off + 24) = (tl.map encodeSeg).flatten ++ rest := by
      rw [show off + 24 = off + 4 + 4 + 4 + 4 + 4 + 4 from by omega]
      exact h6
    have hb : off + 24 ≤ data.length := by
      have hl := congrArg List.length h
      rw [List.length_drop] at hl
      simp only [List.length_append, le32_length] at hl
      omega
    have ih' := ih (off + 24) rest h6'
    rw [List.length_cons]
    simp only [parseSegments]
    rw [if_pos hb, hx, hy, ih']
    simp only [List.map_cons, segPt]
    congr 2
    omega

/-- Parsing the encoding of one stroke record emits exactly the stroke
`emitOf` describes and advances past the whole record. -/
theorem parseStroke_encode (data : List Nat) (version : Nat) (r : StrokeRec)
    (off : Nat) (rest : List Nat)
    (h : data.drop off = encodeStroke version r ++ rest)
    (hseg : r.segs.length < 2 ^ 32) :
    parseStroke data off version =
      some (emitOf r, off + (encodeStroke version r).length) := by
  have hb : off + strokeHeaderSize version ≤ data.length := by
    have hl := congrArg List.length h
    rw [List.length_drop, List.length_append, encodeStroke_length] at hl
    have hpos : 0 < strokeHeaderSize version := by
      unfold strokeHeaderSize
      split <;> omega
    generalize strokeHeaderSize version = H at hl hpos ⊢
    omega
  rw [encodeStroke_length]
  by_cases hv : version = 3
  · subst hv
    simp only [encodeStroke, eq_self_iff_true, if_true, List.append_assoc,
      List.nil_append] at h
    have h1 := drop_shift h
    rw [le32_length] at h1
    have hcolor := readU32T_le32 h1
    have h2 := drop_shift h1
    rw [le32_length] at h2
    have h3 := drop_shift h2
    rw [le32_length] at h3
    have h4 := drop_shift h3
    rw [le32_length] at h4
    have hnseg : readU32T data (off + 16) = r.segs.length := by
      have hr := readU32T_le32 h4
      rw [show off + 4 + 4 + 4 + 4 = off + 16 from by omega] at hr
      rw [hr, Nat.mod_eq_of_lt hseg]
    have h5 := drop_shift h4
    rw [le32_length] at h5
    have h5' : data.drop (off + 20) = (r.segs.map encodeSeg).flatten ++ rest := by
      rw [show off + 20 = off + 4 + 4 + 4 + 4 + 4 from by omega]
      exact h5
    have hsegs := parseSegments_encode data r.segs (off + 20) rest h5'
    have hhdr : strokeHeaderSize 3 = 20 := rfl
    rw [hhdr] at hb ⊢
    unfold parseStroke strokeSegCount
    rw [hhdr, if_pos hb, show off + 20 - 4 = off + 16 from by omega, hnseg, hsegs]
    simp only []
    rcases hsg : r.segs with _ | ⟨a, _ | ⟨b, t⟩⟩ <;>
      simp [emitOf, hsg, hcolor, segPt] <;> omega
  · simp only [encodeStroke, if_neg hv, List.append_assoc] at h
    have h1 := drop_shift h
    rw [le32_length] at h1
    have hcolor := readU32T_le32 h1
    have h2 := drop_shift h1
    rw [le32_length] at h2
    have h3 := drop_shift h2
    rw [le32_length] at h3
    have h4 := drop_shift h3
    rw [le32_length] at h4
    have h5 := drop_shift h4
    rw [le32_length] at h5
    have hnseg : readU32T data (off + 20) = r.segs.length := by
      have hr := readU32T_le32 h5
      rw [show off + 4 + 4 + 4 + 4 + 4 = off + 20 from by omega] at hr
      rw [hr, Nat.mod_eq_of_lt hseg]
    have h6 := drop_shift h5
    rw [le32_length] at h6
    have h6' : data.drop (off + 24) = (r.segs.map encodeSeg).flatten ++ rest := by
      rw [show off + 24 = off + 4 + 4 + 4 + 4 + 4 + 4 from by omega]
      exact h6
    have hsegs := parseSegments_encode data r.segs (off + 24) rest h6'
    have hhdr : strokeHeaderSize version = 24 := by
      unfold strokeHeaderSize
      rw [if_neg hv]
    rw [hhdr] at hb ⊢
    unfold parseStroke strokeSegCount
    rw [hhdr, if_pos hb, show off + 24 - 4 = off + 20 from by omega, hnseg, hsegs]
    simp only []
    rcases hsg : r.segs with _ | ⟨a, _ | ⟨b, t⟩⟩ <;>
      simp [emitOf, hsg, hcolor, segPt] <;> omega

/-- Parsing the encoding of a run of stroke records yields exactly the
emitted strokes, in order, zero-segment records dropped. -/
theorem parseStrokesN_encode (data : List Nat) (version : Nat) :
    ∀ (strokes : List StrokeRec) (off : Nat) (rest : List Nat),
      data.drop off = (strokes.map (encodeStroke version)).flatten ++ rest →
      (∀ r ∈ strokes, r.segs.length < 2 ^ 32) →
      parseStrokesN data off version strokes.length =
        some (strokes.filterMap emitOf,
          off + ((strokes.map (encodeStroke version)).flatten).length) := by
  intro strokes
  induction strokes with
  | nil =>
    intro off rest h hseg
    simp [parseStrokesN]
  | cons r tl ih =>
    intro off rest h hseg
    rw [List.map_cons, List.flatten_cons, List.append_assoc] at h
    have hstk := parseStroke_encode data version r off
      ((tl.map (encodeStroke version)).flatten ++ rest) h (hseg r (by simp))
    have hnext := drop_shift h
    have ihh := ih (off + (encodeStroke version r).length) rest hnext
      (fun r' hr' => hseg r' (by simp [hr']))
    rw [List.length_cons]
    simp only [parseStrokesN]
    rw [hstk]
    simp only []
    rw [ihh]
    simp only []
    rw [List.filterMap_cons]
    cases hemit : emitOf r with
    | none =>
      simp only [List.map_cons, List.flatten_cons, List.length_append]
      rw [Nat.add_assoc]
    | some st =>
      simp only [List.map_cons, List.flatten_cons, List.length_append]
      rw [Nat.add_assoc]

/-- Parsing the encoding of a list of layers yields the flat concatenation
of the per-layer emitted strokes, in on-disk order. -/
theorem parse_rm_strokes_encode (data : List Nat) (version : Nat) :
    ∀ (layers : List (List StrokeRec)) (off : Nat) (rest : List Nat),
      data.drop off = (layers.map (encodeLayer version)).flatten ++ rest →
      (∀ l ∈ layers, l.length < 2 ^ 32) →
      (∀ l ∈ layers, ∀ r ∈ l, r.segs.length < 2 ^ 32) →
      parse_rm_strokes data off layers.length version =
        some ((layers.map (fun l => l.filterMap emitOf)).flatten,
          off + ((layers.map (encodeLayer version)).flatten).length) := by
  intro layers
  induction layers with
  | nil =>
    intro off rest h hcnt hseg
    simp [parse_rm_strokes]
  | cons l tl ih =>
    intro off rest h hcnt hseg
    rw [List.map_cons, List.flatten_cons, List.append_assoc] at h
    simp only [encodeLayer, List.append_assoc] at h
    have hread := readU32_le32 h
    rw [Nat.mod_eq_of_lt (hcnt l (by simp))] at hread
    have h1 := drop_shift h
    rw [le32_length] at h1
    have hrun := parseStrokesN_encode data version l (off + 4)
      ((tl.map (encodeLayer version)).flatten ++ rest) h1
      (fun r hr => hseg l (by simp) r hr)
    have h2 := drop_shift h1
    have ihh := ih (off + 4 + ((l.map (encodeStroke version)).flatten).length) rest h2
      (fun l' hl' => hcnt l' (by simp [hl'])) (fun l' hl' => hseg l' (by simp [hl']))
    rw [List.length_cons]
    unfold parse_rm_strokes
    rw [hread]
    simp only []
    rw [hrun]
    simp only []
    rw [ihh]
    have hle : (encodeLayer version l).length =
        4 + ((l.map (encodeStroke version)).flatten).length := by
      simp [encodeLayer, le32_length]
    simp only [List.map_cons, List.flatten_cons, List.length_append, le32_length]
    congr 2
    omega

/-- A stroke record with at least one segment is always emitted. -/
theorem emitOf_isSome {r : StrokeRec} (h : r.segs ≠ []) : (emitOf r).isSome := by
  unfold emitOf
  rcases hs : r.segs with _ | ⟨a, _ | ⟨b, t⟩⟩
  · exact absurd hs h
  · simp
  · simp

/-- With every record carrying at least one segment, no stroke is dropped. -/
theorem filterMap_emitOf_length :
    ∀ (l : List StrokeRec), (∀ r ∈ l, r.segs ≠ []) →
      (l.filterMap emitOf).length = l.length := by
  intro l
  induction l with
  | nil => simp
  | cons r tl ih =>
    intro hne
    rw [List.filterMap_cons]
    have hsome := emitOf_isSome (hne r (by simp))
    cases hemit : emitOf r with
    | none =>
      rw [hemit] at hsome
      simp at hsome
    | some st =>
      simp only [List.length_cons, ih (fun r' h' => hne r' (by simp [h']))]

/-- Counterexample to claim C2: a generation-3 file layer declaring one
stroke with zero segments decodes to an empty stroke list, so the decoded
total (0) differs from the declared per-layer stroke-count sum (1) — the
decoder silently drops zero-segment strokes. -/
theorem c2_counterexample :
    parse_rm_strokes v3ZeroSegBody 0 1 3 = some ([], 24) ∧
    readU32 v3ZeroSegBody 0 = some 1 ∧ (0 : Nat) ≠ 1 :=
  ⟨rfl, rfl, by omega⟩

/-- Claim C2 as amended: for every valid generation-3/5 file in which every
declared stroke record carries at least one segment (and counts fit in 32
bits), the header resolver reads back the version and layer count, and the
structured decoder returns the flat list of per-layer emitted strokes in
on-disk order, whose total count equals the sum of the declared per-layer
stroke counts.  (Without the at-least-one-segment condition the count
equation fails: see `c2_counterexample`.) -/
theorem c2_amended (version : Nat) (layers : List (List StrokeRec))
    (hv : version = 3 ∨ version = 5)
    (hnl : layers.length < 2 ^ 32)
    (hcnt : ∀ l ∈ layers, l.length < 2 ^ 32)
    (hrec : ∀ l ∈ layers, ∀ r ∈ l, r.segs ≠ [] ∧ r.segs.length < 2 ^ 32) :
    read_rm_version_and_layers (encodeRmFile version layers) 0 =
      .ok (version, layers.length, 47) ∧
    parse_rm_strokes (encodeRmFile version layers) 47 layers.length version =
      some ((layers.map (fun l => l.filterMap emitOf)).flatten,
        47 + (encodeBody version layers).length) ∧
    ((layers.map (fun l => l.filterMap emitOf)).flatten).length =
      (layers.map List.length).sum := by
  have h0 : (encodeRmFile version layers).drop 0 =
      headerBytes ++ ([48 + version] ++ (List.replicate 10 0 ++
        (le32 layers.length ++ encodeBody version layers))) := by
    simp [encodeRmFile, List.append_assoc]
  have hpre : ((encodeRmFile version layers).drop 0).take headerBytes.length =
      headerBytes := by
    rw [h0, List.take_left]
  have hd32 := drop_shift h0
  have hver : ((encodeRmFile version layers).drop (0 + headerBytes.length)).take 1 =
      [48 + version] := by
    rw [hd32, show (1 : Nat) = ([48 + version]).length from rfl, List.take_left]
  have hd33 := drop_shift hd32
  have hd43 := drop_shift hd33
  rw [show headerBytes.length = 32 from by decide] at hd32 hver hd33 hd43
  rw [show ([48 + version] : List Nat).length = 1 from rfl] at hd33 hd43
  rw [show (List.replicate 10 (0 : Nat)).length = 10 from by simp] at hd43
  have hd43' : (encodeRmFile version layers).drop 43 =
      le32 layers.length ++ (encodeBody version layers ++ []) := by
    rw [show (43 : Nat) = 0 + 32 + 1 + 10 from by omega, hd43, List.append_nil]
  have hd47 := drop_shift hd43'
  rw [le32_length] at hd47
  have hrv : read_rm_version (encodeRmFile version layers) 0 = .ok version := by
    unfold read_rm_version
    rw [if_pos hpre, show headerBytes.length = 32 from by decide]
    simp only [hver]
    rcases hv with rfl | rfl <;> rfl
  have hread : readU32 (encodeRmFile version layers) (0 + 43) =
      some layers.length := by
    rw [show (0 + 43 : Nat) = 43 from by omega]
    have := readU32_le32 hd43'
    rw [this, Nat.mod_eq_of_lt hnl]
  have hd47' : (encodeRmFile version layers).drop 47 =
      (layers.map (encodeLayer version)).flatten ++ [] := by
    rw [show (47 : Nat) = 43 + 4 from by omega, hd47]
    rfl
  have hparse := parse_rm_strokes_encode (encodeRmFile version layers) version layers
    47 [] hd47' hcnt (fun l hl r hr => (hrec l hl r hr).2)
  refine ⟨?_, ?_, ?_⟩
  · unfold read_rm_version_and_layers
    simp only [hrv]
    have h6 : version ≠ 6 := by rcases hv with rfl | rfl <;> omega
    rw [if_neg h6]
    simp only [hread]
  · rw [hparse]
    rfl
  · rw [List.length_flatten, List.map_map]
    apply congrArg List.sum
    apply List.map_congr_left
    intro l hl
    exact filterMap_emitOf_length l (fun r hr => (hrec l hl r hr).1)

/-- Witness for `c2_amended`: a generation-3 file with one layer holding one
single-segment stroke. -/
theorem c2_amended_witness :
    read_rm_version_and_layers (encodeRmFile 3 [[sampleStroke]]) 0 =
      .ok (3, 1, 47) ∧
    parse_rm_strokes (encodeRmFile 3 [[sampleStroke]]) 47 1 3 =
      some (([[sampleStroke]].map (fun l => l.filterMap emitOf)).flatten,
        47 + (encodeBody 3 [[sampleStroke]]).length) ∧
    (([[sampleStroke]].map (fun l => l.filterMap emitOf)).flatten).length =
      ([[sampleStroke]].map List.length).sum := by
  have h := c2_amended 3 [[sampleStroke]] (Or.inl rfl) (by norm_num)
    (by intro l hl; simp at hl; subst hl; norm_num)
    (by intro l hl r hr; simp at hl; subst hl; simp at hr; subst hr
        exact ⟨by simp [sampleStroke], by simp [sampleStroke]⟩)
  simpa using h

end RM
